import Mathlib

set_option maxRecDepth 100000

/-
Verification of the nats-rs wire-protocol decoder (src/server/src/parser.rs)
and client connection/subscription manager (src/client/src/client.rs).

The decoder is embedded as a byte-at-a-time step function over an explicit
parser state record; machine integers (usize, u64) are modelled as Nat with
explicit bounds or modular reduction where the source wraps.  Rust panics
(unwrap on invalid UTF-8, out-of-bounds indexing, the explicit in-place
buffer guard) are modelled as a distinguished fatal outcome, never as an
ordinary error value, so that claims about process-fatal behaviour are
expressible.
-/

namespace NatsRs

/-! Error codes from src/server/src/error.rs. -/

def ERROR_PARSE : Nat := 1

def ERROR_MESSAGE_SIZE_TOO_LARGE : Nat := 2

/-! Parser state machine from src/server/src/parser.rs. -/

inductive ParseState where
  | OpStart
  | OpP
  | OpPu
  | OpPub
  | OpPubSpace
  | OpPubArg
  | OpS
  | OpSu
  | OpSub
  | OPSubSpace
  | OpSubArg
  | OpMsgPayload
  | OpMsgEnd
deriving DecidableEq, Repr

def BUF_LEN : Nat := 512

/-- The parser record: state tag, fixed 512-byte scratch buffer, argument
length, optional growable overflow buffer, declared payload length and
payload bytes consumed so far.  Field names follow the source. -/
structure Parser where
  state : ParseState
  buf : List Nat
  arg_len : Nat
  msg_buf : Option (List Nat)
  msg_total_len : Nat
  msg_len : Nat
deriving DecidableEq, Repr

def Parser.new : Parser :=
  { state := .OpStart
    buf := List.replicate BUF_LEN 0
    arg_len := 0
    msg_buf := none
    msg_total_len := 0
    msg_len := 0 }

/-- SubArg from the source; the borrowed str slices are modelled as the
byte lists they denote. -/
structure SubArg where
  subject : List Nat
  sid : List Nat
  queue : Option (List Nat)
deriving DecidableEq, Repr

/-- PubArg from the source. -/
structure PubArg where
  subject : List Nat
  size_buf : List Nat
  size : Nat
  msg : List Nat
deriving DecidableEq, Repr

inductive ParseResult where
  | noMsg
  | sub (a : SubArg)
  | pub (a : PubArg)
deriving DecidableEq, Repr

/-- The distinct process-fatal control paths of the source parser:
the explicit guard in add_msg, the from_utf8 unwrap in process_sub,
the unchecked two-slot token array in process_payload, and the
payload slice bound in process_payload. -/
inductive AbortKind where
  | addMsg
  | subUtf8
  | pubTokens
  | pubSlice
deriving DecidableEq, Repr

/-- Result of one of the internal helper routines. -/
inductive PRes where
  | ok (r : ParseResult)
  | err (code : Nat)
  | fatal (a : AbortKind)
deriving DecidableEq, Repr

/-- Validity per Rust core::str::from_utf8 (rejects overlong forms,
surrogates and values above U+10FFFF). -/
def utf8Valid : List Nat → Bool
  | [] => true
  | b :: rest =>
    if b ≤ 0x7F then utf8Valid rest
    else if 0xC2 ≤ b ∧ b ≤ 0xDF then
      match rest with
      | c1 :: r => decide (0x80 ≤ c1 ∧ c1 ≤ 0xBF) && utf8Valid r
      | [] => false
    else if b = 0xE0 then
      match rest with
      | c1 :: c2 :: r =>
        decide (0xA0 ≤ c1 ∧ c1 ≤ 0xBF) && decide (0x80 ≤ c2 ∧ c2 ≤ 0xBF) && utf8Valid r
      | _ => false
    else if (0xE1 ≤ b ∧ b ≤ 0xEC) ∨ (0xEE ≤ b ∧ b ≤ 0xEF) then
      match rest with
      | c1 :: c2 :: r =>
        decide (0x80 ≤ c1 ∧ c1 ≤ 0xBF) && decide (0x80 ≤ c2 ∧ c2 ≤ 0xBF) && utf8Valid r
      | _ => false
    else if b = 0xED then
      match rest with
      | c1 :: c2 :: r =>
        decide (0x80 ≤ c1 ∧ c1 ≤ 0x9F) && decide (0x80 ≤ c2 ∧ c2 ≤ 0xBF) && utf8Valid r
      | _ => false
    else if b = 0xF0 then
      match rest with
      | c1 :: c2 :: c3 :: r =>
        decide (0x90 ≤ c1 ∧ c1 ≤ 0xBF) && decide (0x80 ≤ c2 ∧ c2 ≤ 0xBF) &&
          decide (0x80 ≤ c3 ∧ c3 ≤ 0xBF) && utf8Valid r
      | _ => false
    else if 0xF1 ≤ b ∧ b ≤ 0xF3 then
      match rest with
      | c1 :: c2 :: c3 :: r =>
        decide (0x80 ≤ c1 ∧ c1 ≤ 0xBF) && decide (0x80 ≤ c2 ∧ c2 ≤ 0xBF) &&
          decide (0x80 ≤ c3 ∧ c3 ≤ 0xBF) && utf8Valid r
      | _ => false
    else if b = 0xF4 then
      match rest with
      | c1 :: c2 :: c3 :: r =>
        decide (0x80 ≤ c1 ∧ c1 ≤ 0x8F) && decide (0x80 ≤ c2 ∧ c2 ≤ 0xBF) &&
          decide (0x80 ≤ c3 ∧ c3 ≤ 0xBF) && utf8Valid r
      | _ => false
    else false

/-- buf.iter().rev().position(|b| b == b' ' || b == b'\t') applied to an
already-reversed list: index of the first space or tab. -/
def position : List Nat → Option Nat
  | [] => none
  | b :: rest =>
    if b = 32 ∨ b = 9 then some 0
    else (position rest).map (· + 1)

def isDigit (b : Nat) : Bool := decide (48 ≤ b ∧ b ≤ 57)

/-- Strip the single optional leading plus sign accepted by usize::from_str. -/
def digitsCore : List Nat → List Nat
  | [] => []
  | b :: rest => if b = 43 then rest else b :: rest

/-- Decimal value of a digit-byte sequence. -/
def digitsVal (l : List Nat) : Nat := l.foldl (fun a b => a * 10 + (b - 48)) 0

/-- str::parse::<usize>() on a byte sequence: optional leading plus, one or
more ASCII digits, value within the 64-bit usize range. -/
def parseUsize (l : List Nat) : Option Nat :=
  if digitsCore l = [] then none
  else if (digitsCore l).all isDigit then
    if digitsVal (digitsCore l) < 2 ^ 64 then some (digitsVal (digitsCore l)) else none
  else none

/-- str::split(' ') at the byte level (the split character is ASCII, so the
byte-level split coincides with the char-level split on valid UTF-8). -/
def splitOnSpace : List Nat → List (List Nat)
  | [] => [[]]
  | 32 :: rest => [] :: splitOnSpace rest
  | b :: rest =>
    match splitOnSpace rest with
    | t :: ts => (b :: t) :: ts
    | [] => [[b]]

/-- The non-empty tokens of the argument line (the source loop skips empty
split pieces). -/
def tokensOf (l : List Nat) : List (List Nat) :=
  (splitOnSpace l).filter (fun t => !t.isEmpty)

/-- Parser::process_payload_size: scan the argument bytes from the end for a
space or tab, then parse the trailing token as usize. -/
def process_payload_size (p : Parser) : Except Nat Nat :=
  let a := p.buf.take p.arg_len
  match position a.reverse with
  | none => .error ERROR_PARSE
  | some pos =>
    match parseUsize (a.drop (p.arg_len - pos)) with
    | none => .error ERROR_PARSE
    | some n => .ok n

/-- Parser::process_sub: from_utf8(..).unwrap() aborts on invalid UTF-8;
then split into at most three non-empty tokens (a fourth is a parse error),
two tokens mean subject and sid, three mean subject, sid and queue in that
order (this is what the source does with arg_buf indices 1 and 2). -/
def process_sub (p : Parser) : PRes :=
  let a := p.buf.take p.arg_len
  if utf8Valid a then
    let ts := tokensOf a
    if 4 ≤ ts.length then .err ERROR_PARSE
    else
      match ts with
      | [s, i] => .ok (.sub { subject := s, sid := i, queue := none })
      | [s, i, q] => .ok (.sub { subject := s, sid := i, queue := some q })
      | _ => .err ERROR_PARSE
  else .fatal .subUtf8

/-- The token-filling loop of Parser::process_payload: the target array has
two slots and the loop writes without a bound check, so a third non-empty
token is an out-of-bounds abort. -/
def payloadTokens (p : Parser) (msg : List Nat) : PRes :=
  let ts := tokensOf (p.buf.take p.arg_len)
  if 3 ≤ ts.length then .fatal .pubTokens
  else .ok (.pub { subject := ts.getD 0 [], size_buf := ts.getD 1 [],
                   size := p.msg_total_len, msg := msg })

/-- Parser::process_payload: the message is the overflow buffer if present,
otherwise the in-place slice buf[arg_len .. arg_len + msg_total_len]
(an out-of-range slice aborts). -/
def process_payload (p : Parser) : PRes :=
  match p.msg_buf with
  | some v => payloadTokens p v
  | none =>
    if p.arg_len + p.msg_total_len ≤ p.buf.length then
      payloadTokens p ((p.buf.drop p.arg_len).take p.msg_total_len)
    else .fatal .pubSlice

/-- Outcome of processing a single input byte. -/
inductive Step where
  | cont (p : Parser)
  | done (r : ParseResult) (p : Parser)
  | fail (code : Nat) (p : Parser)
  | fatal (a : AbortKind)
deriving DecidableEq, Repr

/-- The buffer write plus length bump shared by add_arg. -/
def argPush (p : Parser) (b : Nat) : Parser :=
  { p with buf := p.buf.set p.arg_len b, arg_len := p.arg_len + 1 }

/-- Parser::add_arg: parse error once the fixed buffer is full. -/
def add_arg (p : Parser) (b : Nat) : Step :=
  if p.buf.length ≤ p.arg_len then .fail ERROR_PARSE p
  else .cont (argPush p b)

/-- Parser::add_msg: push to the overflow buffer when present, otherwise
abort if the frame cannot fit in place, else write into the scratch buffer
after the argument bytes. -/
def add_msg (p : Parser) (b : Nat) : Step :=
  match p.msg_buf with
  | some v => .cont { p with msg_buf := some (v ++ [b]), msg_len := p.msg_len + 1 }
  | none =>
    if BUF_LEN < p.arg_len + p.msg_total_len then .fatal .addMsg
    else .cont { p with buf := p.buf.set (p.arg_len + p.msg_len) b,
                        msg_len := p.msg_len + 1 }

/-- Behaviour of a byte in state OpPubArg (also used when OpPubSpace falls
through to the argument on a non-whitespace byte).  On the newline the
source first sets the state to OpMsgPayload, then computes the declared
size, rejects 0 or above one MiB with the dedicated error, allocates the
overflow buffer when the frame cannot fit next to the argument bytes, and
records the declared length. -/
def pubArgStep (p : Parser) (b : Nat) : Step :=
  if b = 13 then .cont p
  else if b = 10 then
    let p1 := { p with state := .OpMsgPayload }
    match process_payload_size p1 with
    | .error c => .fail c p1
    | .ok n =>
      if n = 0 ∨ 1048576 < n then .fail ERROR_MESSAGE_SIZE_TOO_LARGE p1
      else
        let p2 := if BUF_LEN < n + p1.arg_len ∧ p1.msg_buf = none
                  then { p1 with msg_buf := some [] } else p1
        .cont { p2 with msg_total_len := n }
  else add_arg p b

/-- Behaviour of a byte in state OpSubArg (also reached from OPSubSpace).
On the newline the source sets the state back to OpStart before running
process_sub. -/
def subArgStep (p : Parser) (b : Nat) : Step :=
  if b = 13 then .cont p
  else if b = 10 then
    let p1 := { p with state := .OpStart }
    match process_sub p1 with
    | .ok r => .done r p1
    | .err c => .fail c p1
    | .fatal a => .fatal a
  else add_arg p b

/-- One byte of Parser::parse.  The source's continue-without-consuming in
the two Space states is inlined: the byte is handled directly by the
argument-state behaviour. -/
def step (p : Parser) (b : Nat) : Step :=
  match p.state with
  | .OpStart =>
    if b = 80 ∨ b = 112 then .cont { p with state := .OpP }
    else if b = 83 ∨ b = 115 then .cont { p with state := .OpS }
    else .fail ERROR_PARSE p
  | .OpP =>
    if b = 85 ∨ b = 117 then .cont { p with state := .OpPu }
    else .fail ERROR_PARSE p
  | .OpPu =>
    if b = 66 ∨ b = 98 then .cont { p with state := .OpPub }
    else .fail ERROR_PARSE p
  | .OpPub =>
    if b = 32 ∨ b = 9 then .cont { p with state := .OpPubSpace }
    else .fail ERROR_PARSE p
  | .OpPubSpace =>
    if b = 32 ∨ b = 9 then .cont p
    else pubArgStep { p with state := .OpPubArg, arg_len := 0 } b
  | .OpPubArg => pubArgStep p b
  | .OpS =>
    if b = 85 then .cont { p with state := .OpSu }
    else .fail ERROR_PARSE p
  | .OpSu =>
    if b = 66 then .cont { p with state := .OpSub }
    else .fail ERROR_PARSE p
  | .OpSub =>
    if b = 32 ∨ b = 9 then .cont { p with state := .OPSubSpace }
    else .fail ERROR_PARSE p
  | .OPSubSpace =>
    if b = 32 ∨ b = 9 then .cont p
    else subArgStep { p with state := .OpSubArg, arg_len := 0 } b
  | .OpSubArg => subArgStep p b
  | .OpMsgPayload =>
    if p.msg_len < p.msg_total_len then add_msg p b
    else .cont { p with state := .OpMsgEnd }
  | .OpMsgEnd =>
    if b = 32 ∨ b = 9 then .cont p
    else if b = 10 then
      let p1 := { p with state := .OpStart }
      match process_payload p1 with
      | .ok r => .done r p1
      | .err c => .fail c p1
      | .fatal a => .fatal a
    else .fail ERROR_PARSE p

/-- Outcome of one Parser::parse call: decoded result plus consumed byte
count plus the parser as left behind (the source mutates in place and the
caller may keep using it, including after an error), or a fatal abort. -/
inductive POut where
  | ok (r : ParseResult) (consumed : Nat) (p : Parser)
  | err (code : Nat) (p : Parser)
  | fatal (a : AbortKind)
deriving DecidableEq, Repr

def POut.event : POut → Option (ParseResult × Nat)
  | .ok r n _ => some (r, n)
  | _ => none

def POut.code : POut → Option Nat
  | .err c _ => some c
  | _ => none

def parseRun : Parser → List Nat → Nat → POut
  | p, [], i => .ok .noMsg i p
  | p, b :: rest, i =>
    match step p b with
    | .cont q => parseRun q rest (i + 1)
    | .done r q => .ok r (i + 1) q
    | .fail c q => .err c q
    | .fatal a => .fatal a

/-- Parser::parse. -/
def Parser.parse (p : Parser) (input : List Nat) : POut := parseRun p input 0

/-- Run a sequence of bytes that must all be consumed silently, returning
the parser state afterwards. -/
def consume : Parser → List Nat → Option Parser
  | p, [] => some p
  | p, b :: rest =>
    match step p b with
    | .cont q => consume q rest
    | _ => none

/-- The effect on the parser of appending a run of ordinary argument bytes. -/
def addArgs (p : Parser) (bs : List Nat) : Parser := bs.foldl argPush p

/-- A session against one decoder instance: each chunk is one parse call,
and the parser left behind by a normal or error return is fed the next
chunk, exactly as a caller of the mutable Rust parser can. -/
def parseSession : Parser → List (List Nat) → Except AbortKind Parser
  | p, [] => .ok p
  | p, c :: cs =>
    match Parser.parse p c with
    | .ok _ _ q => parseSession q cs
    | .err _ q => parseSession q cs
    | .fatal a => .error a

def isAddMsgAbort : Except AbortKind Parser → Bool
  | .error .addMsg => true
  | _ => false

/-- ASCII text to bytes, for writing concrete frames. -/
def asciiBytes (s : String) : List Nat := s.data.map Char.toNat

/-! Client side: src/client/src/errors.rs and src/client/src/client.rs.
The transport itself (TCP, BufReader) cannot be embedded; the outcomes of
the I/O-performing steps (try_connect, the SUB write plus wait_ok) are
abstracted as explicit oracle arguments, while all state manipulation
around them is translated from the source. -/

inductive ErrorKind where
  | ClientProtocolError
  | InvalidClientConfig
  | IoError
  | InvalidSchemeError
  | ServerProtocolError
  | TypeError
deriving DecidableEq, Repr

/-- NatsClientError, collapsed to its observable representation. -/
inductive NatsClientError where
  | withDescription (kind : ErrorKind) (description : String)
  | withDescriptionAndDetail (kind : ErrorKind) (description : String) (detail : String)
  | ioError (description : String)
  | urlParseError (description : String)
deriving DecidableEq, Repr

structure Channel where
  sid : Nat
deriving DecidableEq, Repr

structure Subscription where
  subject : String
  queue : Option String
deriving DecidableEq, Repr

def RETRIES_MAX : Nat := 5

def CIRCUIT_BREAKER_ROUNDS_BEFORE_BREAKING : Nat := 4

/-- u64 wraps at this modulus (sid is a u64 advanced with wrapping_add). -/
def U64_MOD : Nat := 2 ^ 64

/-- name.contains(" "): the validation checks for the space character only. -/
def containsSpace (s : String) : Bool := s.data.any (fun c => c == ' ')

def check_space (name : String) (errmsg : String) : Except NatsClientError Unit :=
  if containsSpace name then
    .error (.withDescription .ClientProtocolError errmsg)
  else .ok ()

def check_subject (subject : String) : Except NatsClientError Unit :=
  check_space subject "Subject can't contain spaces"

def check_queue (queue : String) : Except NatsClientError Unit :=
  check_space queue "Queue name can't contain spaces"

/-- The client fields the subscription claims speak about: the sid
allocator, the registry (a map modelled as a key-value list with
replacing insert), and whether a connection state is installed. -/
structure ClientM where
  sid : Nat
  subscriptions : List (Nat × Subscription)
  hasState : Bool
deriving DecidableEq, Repr

/-- HashMap::insert semantics on the list model: the new binding replaces
any previous binding of the same key. -/
def insertSub (k : Nat) (v : Subscription) (l : List (Nat × Subscription)) :
    List (Nat × Subscription) :=
  (k, v) :: l.filter (fun kv => kv.1 != k)

/-- Client::with_reconnect.  The loop always runs RETRIES_MAX times; each
iteration does self.state.take().unwrap() — take removes the state, so from
the second iteration onward the unwrap is on None, which aborts the
process.  The abort is modelled as the none outcome. -/
def withReconnectLoop {α β : Type} (f : α → Except NatsClientError β) :
    Nat → Option α → Except NatsClientError β → Option (Except NatsClientError β)
  | 0, _, res => some res
  | n + 1, st, _ =>
    match st with
    | none => none
    | some s => withReconnectLoop f n none (f s)

def withReconnect {α β : Type} (f : α → Except NatsClientError β) (state : Option α) :
    Option (Except NatsClientError β) :=
  withReconnectLoop f RETRIES_MAX state
    (.error (.withDescription .IoError "I/O error"))

/-- Client::subscribe_with_sid: build the SUB command and submit it through
with_reconnect against the installed connection state.  The transport work
of one closure invocation (the SUB write plus wait_ok) is abstracted as the
ack oracle; the retry loop itself is the embedded withReconnect, so its
take-then-unwrap abort (none) is preserved. -/
def subscribe_with_sid (sid : Nat) (ackRes : Except NatsClientError Unit)
    (state : Option Unit) : Option (Except NatsClientError Channel) :=
  withReconnect (fun _ => ackRes.map (fun _ => ({ sid := sid } : Channel))) state

/-- The connect/send/ack path of Client::subscribe after validation:
connect_if_needed (connect runs only when no state is installed, its
outcome given by the oracle; on success exactly one state is installed),
then subscribe_with_sid over that state, then — only when it returns Ok —
the commit of the sid advance and registry insert.  An abort inside
subscribe_with_sid (none) propagates: nothing after it runs. -/
def subscribeCore (c : ClientM) (sid : Nat) (sub : Subscription)
    (connectRes : Except NatsClientError Unit) (ackRes : Except NatsClientError Unit) :
    Option (Except NatsClientError Channel × ClientM) :=
  match (if c.hasState then Except.ok () else connectRes) with
  | .error e => some (.error e, c)
  | .ok _ =>
    let c1 : ClientM := { c with hasState := true }
    match subscribe_with_sid sid ackRes (some ()) with
    | none => none
    | some res =>
      -- with_reconnect took the state and never restores it
      let c2 : ClientM := { c1 with hasState := false }
      match res with
      | .error e => some (.error e, c2)
      | .ok ch =>
        some (.ok ch,
          { c2 with sid := (c2.sid + 1) % U64_MOD,
                    subscriptions := insertSub sid sub c2.subscriptions })

/-- Client::subscribe: validate the subject, snapshot the sid, validate the
queue when present, then run the connect/send/ack path.  The none outcome
models a process abort. -/
def Client.subscribe (c : ClientM) (subject : String) (queue : Option String)
    (connectRes : Except NatsClientError Unit) (ackRes : Except NatsClientError Unit) :
    Option (Except NatsClientError Channel × ClientM) :=
  match check_subject subject with
  | .error e => some (.error e, c)
  | .ok _ =>
    let sid := c.sid
    match queue with
    | some q =>
      match check_queue q with
      | .error e => some (.error e, c)
      | .ok _ => subscribeCore c sid { subject := subject, queue := queue } connectRes ackRes
    | none => subscribeCore c sid { subject := subject, queue := queue } connectRes ackRes

/-- One round of Client::connect: up to k remaining candidates, current
index, running attempt counter; the oracle gives the outcome of the t-th
try_connect call.  On failure the index advances by one modulo the
candidate count. -/
def connRound (oracle : Nat → Bool) (n : Nat) :
    Nat → Nat → Nat → Option Nat × Nat × Nat
  | 0, idx, t => (none, idx, t)
  | k + 1, idx, t =>
    if oracle t then (some idx, idx, t + 1)
    else connRound oracle n k ((idx + 1) % n) (t + 1)

/-- The round loop of Client::connect: after the fixed number of rounds the
dedicated cluster-down error is returned; its kind in the source is
ServerProtocolError. -/
def connRounds (oracle : Nat → Bool) (n : Nat) :
    Nat → Nat → Nat → Except NatsClientError Unit × Nat
  | 0, idx, _ =>
    (.error (.withDescription .ServerProtocolError
        "The entire cluster is down or unreachable"), idx)
  | r + 1, idx, t =>
    match connRound oracle n n idx t with
    | (some i, _, _) => (.ok (), i)
    | (none, idx1, t1) => connRounds oracle n r idx1 t1

/-- Client::connect over n candidates starting at the given index. -/
def connectM (oracle : Nat → Bool) (n idx : Nat) : Except NatsClientError Unit × Nat :=
  connRounds oracle n CIRCUIT_BREAKER_ROUNDS_BEFORE_BREAKING idx 0

/-! Remaining auxiliary definitions used by the theorems. -/

/-- The canonical encoding of PUB FOO with a two byte payload, as the
client writes it. -/
def pubFrame1 : List Nat := asciiBytes "PUB FOO 2\r\n" ++ asciiBytes "ab" ++ [13, 10]

/-- The parser as left behind after decoding pubFrame1. -/
def afterFrame1 : Parser :=
  match Parser.parse Parser.new pubFrame1 with
  | .ok _ _ q => q
  | .err _ q => q
  | .fatal _ => Parser.new

/-- The parser state right after the verb and its first delimiter. -/
def pubSpaceState : Parser := { Parser.new with state := .OpPubSpace }

/-- The parser state entering the argument accumulation of a PUB frame. -/
def pubArg0 : Parser := { Parser.new with state := .OpPubArg }

/-- The parser state after consuming the whole header and payload of
pubFrame1 minus its trailing two bytes. -/
def c5mid : Parser :=
  (consume Parser.new (asciiBytes "PUB FOO 2\r\n" ++ asciiBytes "ab")).getD Parser.new

/-- c5mid after the unvalidated first trailing byte moved it to OpMsgEnd. -/
def c5end : Parser := { c5mid with state := ParseState.OpMsgEnd }

/-- The well-formedness and no-in-place-abort invariant of the parser:
the scratch buffer keeps its fixed length, and whenever the overflow
buffer is absent, either the machine is mid-payload with the in-place
bound established by the allocation guard, or the payload counters of the
last frame have already met (so add_msg cannot run before the guard is
re-established by the next argument newline). -/
def Good (p : Parser) : Prop :=
  p.buf.length = 512 ∧
  (p.msg_buf = none → p.state = .OpMsgPayload → p.msg_len < p.msg_total_len →
    p.arg_len + p.msg_total_len ≤ 512) ∧
  (p.msg_buf = none → p.state ≠ .OpMsgPayload → p.msg_total_len ≤ p.msg_len)

def StepGood : Step → Prop
  | .cont q => Good q
  | .done _ q => Good q
  | .fail _ q => Good q
  | .fatal a => a ≠ .addMsg

def POutGood : POut → Prop
  | .ok _ _ q => Good q
  | .err _ q => Good q
  | .fatal a => a ≠ .addMsg

end NatsRs

namespace NatsRs

/-! Claim theorems and the supporting lemmas. -/

/-- Claim C1 (code bug): the decoder is not back in its initial per-frame
state after a successful Publish event.  Feeding the well-formed frame
PUB FOO 2 CRLF ab CRLF to a fresh decoder yields the Publish event, but
feeding the identical frame to the same decoder again yields a parse
error, because msg_len, msg_total_len and the overflow buffer are never
reset: the stale msg_len makes the second frame skip its payload. -/
theorem pub_frame_state_not_reset :
    (Parser.parse Parser.new pubFrame1).event =
      some (.pub { subject := asciiBytes "FOO", size_buf := asciiBytes "2",
                   size := 2, msg := asciiBytes "ab" }, 15) ∧
    (Parser.parse afterFrame1 pubFrame1).code = some ERROR_PARSE := by
  exact ⟨by decide, by decide⟩

/-- Claim C2 (code bug): with_reconnect does not return the first success
or the last failure.  For every operation f and every installed connection
state, the loop takes the state in its first iteration and unwraps the
then-empty slot in its second, aborting the process (modelled as none) —
regardless of whether the first attempt succeeded. -/
theorem with_reconnect_aborts {α β : Type} (f : α → Except NatsClientError β) (s : α) :
    withReconnect f (some s) = none := rfl

/-- Claim C4 (code bug): parse aborts the process instead of returning a
recoverable error on a SUB argument line containing the non-UTF-8 byte
0xFF (from_utf8 unwrap), and on a PUB argument line with three
space-separated tokens (unchecked two-slot array); and the retry wrapper
aborts on its second iteration even for an always-failing operation. -/
theorem failures_can_abort_process :
    Parser.parse Parser.new [83, 85, 66, 32, 255, 32, 49, 13, 10] = .fatal .subUtf8 ∧
    Parser.parse Parser.new (asciiBytes "PUB A B 2\r\n" ++ asciiBytes "ab" ++ [13, 10]) =
      .fatal .pubTokens ∧
    withReconnect (fun _ : Unit => (.error (.withDescription .IoError "I/O error") :
      Except NatsClientError Unit)) (some ()) = none := by
  exact ⟨by decide, by decide, rfl⟩

/-- When every try_connect fails, one round of n candidates reports no
success, advances the attempt counter by n, and ends at some index. -/
theorem connRound_all_fail (oracle : Nat → Bool) (n : Nat)
    (h : ∀ k, oracle k = false) :
    ∀ (k idx t : Nat), ∃ idx1, connRound oracle n k idx t = (none, idx1, t + k) := by
  intro k
  induction k with
  | zero => intro idx t; exact ⟨idx, rfl⟩
  | succ m ih =>
    intro idx t
    obtain ⟨idx1, h1⟩ := ih ((idx + 1) % n) (t + 1)
    refine ⟨idx1, ?_⟩
    have ht : t + (m + 1) = t + 1 + m := by omega
    rw [ht]
    simp only [connRound, h t, Bool.false_eq_true, if_false]
    exact h1

/-- When every try_connect fails, every round loop ends in the
cluster-down error, whose kind is ServerProtocolError. -/
theorem connRounds_all_fail (oracle : Nat → Bool) (n : Nat)
    (h : ∀ k, oracle k = false) :
    ∀ (r idx t : Nat), (connRounds oracle n r idx t).1 =
      .error (.withDescription .ServerProtocolError
        "The entire cluster is down or unreachable") := by
  intro r
  induction r with
  | zero => intro idx t; rfl
  | succ m ih =>
    intro idx t
    obtain ⟨idx1, h1⟩ := connRound_all_fail oracle n h n idx t
    simp only [connRounds, h1]
    exact ih idx1 (t + n)

/-- Claim C7, counterexample: with a single candidate that always fails,
connect returns the cluster-down error with kind ServerProtocolError —
the source has no cluster-unreachable kind distinct from
ServerProtocolError (see ErrorKind). -/
theorem cluster_error_is_server_protocol_kind :
    (connectM (fun _ => false) 1 0).1 =
      .error (.withDescription .ServerProtocolError
        "The entire cluster is down or unreachable") := rfl

/-- Claim C7 as amended: connect iterates the candidates from the current
index for the fixed number of rounds, advancing the index modulo the
candidate count after each failure, and when every attempt fails it
returns the cluster-down error of kind ServerProtocolError (no distinct
cluster-unreachable kind exists). -/
theorem connect_exhaustion_error (oracle : Nat → Bool) (n idx : Nat)
    (h : ∀ k, oracle k = false) :
    (connectM oracle n idx).1 =
      .error (.withDescription .ServerProtocolError
        "The entire cluster is down or unreachable") :=
  connRounds_all_fail oracle n h CIRCUIT_BREAKER_ROUNDS_BEFORE_BREAKING idx 0

/-- Witness for the amended C7 theorem at three always-failing candidates. -/
theorem connect_exhaustion_error_witness :
    (connectM (fun _ => false) 3 1).1 =
      .error (.withDescription .ServerProtocolError
        "The entire cluster is down or unreachable") :=
  connect_exhaustion_error (fun _ => false) 3 1 (fun _ => rfl)

/-- Claim C9, counterexample: a subject containing a tab (and no space)
passes validation, and subscribe proceeds to the connection attempt — the
surfaced error is the connect oracle's I/O error, not a client-protocol
error naming the subject. -/
theorem tab_in_subject_not_rejected :
    Client.subscribe { sid := 1, subscriptions := [], hasState := false } "a\tb" none
      (.error (.ioError "io")) (.ok ()) =
      some (.error (.ioError "io"),
        { sid := 1, subscriptions := [], hasState := false }) := rfl

/-- Claim C9 as amended: subscribe rejects a subject or queue containing a
space character (tab is not checked) with a client-protocol error naming
the offending field, before any connection or I/O is attempted: the result
and the untouched client are the same for every connect and ack oracle. -/
theorem space_validation_before_io (c : ClientM) (subject : String)
    (queue : Option String) (cr ack : Except NatsClientError Unit) :
    (containsSpace subject = true →
      Client.subscribe c subject queue cr ack =
        some (.error (.withDescription .ClientProtocolError "Subject can't contain spaces"),
          c)) ∧
    (containsSpace subject = false → ∀ q, queue = some q → containsSpace q = true →
      Client.subscribe c subject queue cr ack =
        some (.error (.withDescription .ClientProtocolError "Queue name can't contain spaces"),
          c)) := by
  constructor
  · intro h
    simp [Client.subscribe, check_subject, check_space, h]
  · intro h q hq hqs
    subst hq
    simp [Client.subscribe, check_subject, check_queue, check_space, h, hqs]

/-- Witness for the amended C9 theorem: a space in the subject and a space
in the queue are each rejected with the field-naming message. -/
theorem space_validation_before_io_witness :
    Client.subscribe { sid := 1, subscriptions := [], hasState := true } "a b" none
        (.ok ()) (.ok ()) =
      some (.error (.withDescription .ClientProtocolError "Subject can't contain spaces"),
        { sid := 1, subscriptions := [], hasState := true }) ∧
    Client.subscribe { sid := 1, subscriptions := [], hasState := true } "ab" (some "q x")
        (.ok ()) (.ok ()) =
      some (.error (.withDescription .ClientProtocolError "Queue name can't contain spaces"),
        { sid := 1, subscriptions := [], hasState := true }) :=
  ⟨(space_validation_before_io _ "a b" none _ _).1 (by decide),
   (space_validation_before_io _ "ab" (some "q x") _ _).2 (by decide) "q x" rfl (by decide)⟩

/-- Claim C3 (code bug): the commit discipline subscribe's code spells out
— advance the sid and insert into the registry only when subscribe_with_sid
returns Ok, leave both untouched on its error — is unreachable behind the
retry wrapper: once a connection state is installed, subscribe_with_sid's
with_reconnect loop takes the state and aborts the process on its second
iteration, for a failing ack and for a succeeding one alike, so subscribe
never returns from the send/ack step at all (the spec's mock-ack-failure
scenario panics instead of leaving the registry unchanged).  Before the
send — here, a failing connect — subscribe does return with the sid counter
and registry exactly as they were. -/
theorem subscribe_ack_path_aborts :
    Client.subscribe ⟨7, [(3, ⟨"s", none⟩)], true⟩ "foo" none (.ok ())
      (.error (.withDescription .ServerProtocolError "no")) = none ∧
    Client.subscribe ⟨7, [(3, ⟨"s", none⟩)], true⟩ "foo" none (.ok ()) (.ok ()) = none ∧
    Client.subscribe ⟨7, [(3, ⟨"s", none⟩)], false⟩ "foo" none
      (.error (.ioError "io")) (.ok ()) =
      some (.error (.ioError "io"), ⟨7, [(3, ⟨"s", none⟩)], false⟩) :=
  ⟨rfl, rfl, rfl⟩

/-- Claim C8 (code bug): the SUB round trip is not the identity when a
queue is present.  The client encodes SUB subject queue sid (as the file
header of the parser documents), but process_sub assigns token 1 to sid
and token 2 to queue, so decoding the canonical encoding of
(subject, queue, sid "1") yields sid "queue" and queue "1". -/
theorem sub_queue_sid_swapped :
    (Parser.parse Parser.new (asciiBytes "SUB subject queue 1\r\n")).event =
      some (.sub { subject := asciiBytes "subject", sid := asciiBytes "queue",
                   queue := some (asciiBytes "1") }, 21) := by
  decide

/-! Lemmas about running the decoder over structured input. -/

/-- Unfolding of step in state OpPubSpace. -/
theorem step_eq_pubSpace (p : Parser) (hst : p.state = .OpPubSpace) (b : Nat) :
    step p b = if b = 32 ∨ b = 9 then .cont p
      else pubArgStep { p with state := .OpPubArg, arg_len := 0 } b := by
  cases p with
  | mk st buf al mb mtl ml =>
    cases hst
    rfl

/-- Unfolding of step in state OpPubArg. -/
theorem step_eq_pubArg (p : Parser) (hst : p.state = .OpPubArg) (b : Nat) :
    step p b = pubArgStep p b := by
  cases p with
  | mk st buf al mb mtl ml =>
    cases hst
    rfl

/-- Unfolding of step in state OpMsgPayload. -/
theorem step_eq_msgPayload (p : Parser) (hst : p.state = .OpMsgPayload) (b : Nat) :
    step p b = if p.msg_len < p.msg_total_len then add_msg p b
      else .cont { p with state := .OpMsgEnd } := by
  cases p with
  | mk st buf al mb mtl ml =>
    cases hst
    rfl

/-- Unfolding of step in state OpMsgEnd. -/
theorem step_eq_msgEnd (p : Parser) (hst : p.state = .OpMsgEnd) (b : Nat) :
    step p b = if b = 32 ∨ b = 9 then .cont p
      else if b = 10 then
        (match process_payload { p with state := .OpStart } with
         | .ok r => Step.done r { p with state := .OpStart }
         | .err c => Step.fail c { p with state := .OpStart }
         | .fatal a => Step.fatal a)
      else .fail ERROR_PARSE p := by
  cases p with
  | mk st buf al mb mtl ml =>
    cases hst
    rfl

/-- Silently consumed bytes compose with any continuation of the run. -/
theorem consume_parseRun :
    ∀ (a : List Nat) (p q : Parser), consume p a = some q →
      ∀ (t : List Nat) (i : Nat), parseRun p (a ++ t) i = parseRun q t (i + a.length)
  | [], p, q, h, t, i => by
    have hq : p = q := by
      simpa [consume] using h
    subst hq
    simp [parseRun]
  | b :: rest, p, q, h, t, i => by
    simp only [consume] at h
    cases hs : step p b with
    | cont p1 =>
      rw [hs] at h
      have h2 : consume p1 rest = some q := h
      have ih := consume_parseRun rest p1 q h2 t (i + 1)
      calc parseRun p ((b :: rest) ++ t) i
          = parseRun p1 (rest ++ t) (i + 1) := by
            simp only [List.cons_append, parseRun, hs, List.append_eq]
        _ = parseRun q t (i + 1 + rest.length) := ih
        _ = parseRun q t (i + (b :: rest).length) := by
            simp only [List.length_cons]
            congr 1
            omega
    | done r p1 => rw [hs] at h; exact (nomatch h)
    | fail c p1 => rw [hs] at h; exact (nomatch h)
    | fatal a1 => rw [hs] at h; exact (nomatch h)

/-- Setting the cell at the write index extends the taken prefix by one. -/
theorem take_succ_set (b : Nat) :
    ∀ (l : List Nat) (n : Nat), n < l.length →
      (l.set n b).take (n + 1) = l.take n ++ [b]
  | [], n, h => absurd h (by simp)
  | x :: xs, 0, _ => rfl
  | x :: xs, n + 1, h => by
    have ih := take_succ_set b xs n (by simpa using h)
    simp only [List.set, List.take, ih, List.cons_append]

/-- addArgs touches only the buffer and the argument length. -/
theorem addArgs_fields :
    ∀ (bs : List Nat) (p : Parser),
      (addArgs p bs).state = p.state ∧ (addArgs p bs).msg_buf = p.msg_buf ∧
      (addArgs p bs).msg_total_len = p.msg_total_len ∧
      (addArgs p bs).msg_len = p.msg_len ∧
      (addArgs p bs).arg_len = p.arg_len + bs.length ∧
      (addArgs p bs).buf.length = p.buf.length
  | [], p => by simp [addArgs]
  | b :: bs, p => by
    obtain ⟨h1, h2, h3, h4, h5, h6⟩ := addArgs_fields bs (argPush p b)
    have hps : addArgs p (b :: bs) = addArgs (argPush p b) bs := rfl
    rw [hps, h1, h2, h3, h4, h5, h6]
    refine ⟨rfl, rfl, rfl, rfl, ?_, ?_⟩
    · simp only [argPush, List.length_cons]
      omega
    · simp [argPush]

/-- After addArgs, the buffer prefix of the new argument length is the old
prefix followed by the pushed bytes. -/
theorem addArgs_take :
    ∀ (bs : List Nat) (p : Parser), p.arg_len + bs.length ≤ p.buf.length →
      (addArgs p bs).buf.take (p.arg_len + bs.length) = p.buf.take p.arg_len ++ bs
  | [], p, _ => by simp [addArgs]
  | b :: bs, p, h => by
    have hlt : p.arg_len < p.buf.length := by
      simp only [List.length_cons] at h
      omega
    have ih := addArgs_take bs (argPush p b) (by
      simp only [argPush, List.length_set]
      simp only [List.length_cons] at h
      omega)
    have hps : addArgs p (b :: bs) = addArgs (argPush p b) bs := rfl
    have e1 : p.arg_len + (b :: bs).length = (argPush p b).arg_len + bs.length := by
      simp only [argPush, List.length_cons]
      omega
    rw [hps, e1, ih]
    have e2 : (argPush p b).buf.take (argPush p b).arg_len = p.buf.take p.arg_len ++ [b] := by
      simp only [argPush]
      exact take_succ_set b p.buf p.arg_len hlt
    rw [e2]
    simp

/-- Running argument bytes (no CR, no LF) through state OpPubArg just
accumulates them. -/
theorem consume_pubArgs :
    ∀ (bs : List Nat) (p : Parser), p.state = .OpPubArg →
      (∀ b ∈ bs, b ≠ 13 ∧ b ≠ 10) → p.arg_len + bs.length ≤ p.buf.length →
      consume p bs = some (addArgs p bs)
  | [], p, _, _, _ => by simp [consume, addArgs]
  | b :: bs, p, hst, hbs, hlen => by
    have hb := hbs b (by simp)
    have hlt : ¬ p.buf.length ≤ p.arg_len := by
      simp only [List.length_cons] at hlen
      omega
    have hstep : step p b = .cont (argPush p b) := by
      simp only [step, hst, pubArgStep, if_neg hb.1, if_neg hb.2, add_arg, if_neg hlt]
    simp only [consume, hstep]
    exact consume_pubArgs bs (argPush p b) (by simp [argPush, hst])
      (fun x hx => hbs x (by simp [hx]))
      (by
        simp only [argPush, List.length_set]
        simp only [List.length_cons] at hlen
        omega)

/-- The reversed-scan position skips a block without spaces or tabs. -/
theorem position_append_none :
    ∀ (l1 l2 : List Nat), (∀ b ∈ l1, ¬(b = 32 ∨ b = 9)) →
      position (l1 ++ l2) = (position l2).map (· + l1.length)
  | [], l2, _ => by
    cases h2 : position l2 <;> simp [h2]
  | b :: l1, l2, h => by
    have hb := h b (by simp)
    simp only [List.cons_append, position, if_neg hb, List.append_eq]
    rw [position_append_none l1 l2 (fun x hx => h x (by simp [hx]))]
    cases h2 : position l2
    · simp [h2]
    · simp [h2]
      omega

/-- A token accepted by usize parsing holds only plus signs and digits,
so no whitespace and no line terminators. -/
theorem parseUsize_bytes (l : List Nat) (n : Nat) (h : parseUsize l = some n) :
    ∀ b ∈ l, b ≠ 32 ∧ b ≠ 9 ∧ b ≠ 13 ∧ b ≠ 10 := by
  have hall : (digitsCore l).all isDigit = true := by
    simp only [parseUsize] at h
    by_cases h1 : digitsCore l = []
    · rw [if_pos h1] at h
      exact (nomatch h)
    · rw [if_neg h1] at h
      by_cases h2 : (digitsCore l).all isDigit = true
      · exact h2
      · rw [if_neg h2] at h
        exact (nomatch h)
  intro b hb
  have hcases : b = 43 ∨ b ∈ digitsCore l := by
    cases l with
    | nil => cases hb
    | cons x rest =>
      simp only [digitsCore]
      by_cases hx : x = 43
      · subst hx
        rw [if_pos rfl]
        rcases List.mem_cons.mp hb with h43 | hrest
        · exact .inl h43
        · exact .inr hrest
      · rw [if_neg hx]
        exact .inr hb
  rcases hcases with h43 | hcore
  · subst h43
    refine ⟨by omega, by omega, by omega, by omega⟩
  · have hd := List.all_eq_true.mp hall b hcore
    simp only [isDigit, decide_eq_true_eq] at hd
    refine ⟨by omega, by omega, by omega, by omega⟩

/-- Claim C6: on a PUB argument line whose trailing token parses as a
usize integer n, a declared size of zero or above one MiB makes parse
return ERROR_MESSAGE_SIZE_TOO_LARGE — a code distinct from ERROR_PARSE —
while a size in 1..=1MiB never does (the call reports an incomplete frame
awaiting the payload).  The subject is any run of bytes free of CR, LF
and leading whitespace that fits the argument buffer. -/
theorem pub_size_bound (s0 : Nat) (stail tok : List Nat) (n : Nat)
    (hs0 : ¬(s0 = 32 ∨ s0 = 9)) (hs0a : s0 ≠ 13) (hs0b : s0 ≠ 10)
    (hsub : ∀ b ∈ stail, b ≠ 13 ∧ b ≠ 10)
    (htok : parseUsize tok = some n)
    (hlen : stail.length + tok.length + 2 ≤ 512) :
    ((ERROR_MESSAGE_SIZE_TOO_LARGE == ERROR_PARSE) = false) ∧
    (n = 0 ∨ 1048576 < n →
      (Parser.parse Parser.new
        (asciiBytes "PUB " ++ (s0 :: stail) ++ (32 :: tok) ++ [13, 10])).code =
        some ERROR_MESSAGE_SIZE_TOO_LARGE) ∧
    (¬(n = 0 ∨ 1048576 < n) →
      (Parser.parse Parser.new
        (asciiBytes "PUB " ++ (s0 :: stail) ++ (32 :: tok) ++ [13, 10])).event =
        some (.noMsg, stail.length + tok.length + 8)) := by
  have htokb : ∀ b ∈ tok, b ≠ 13 ∧ b ≠ 10 := fun b hb =>
    ⟨(parseUsize_bytes tok n htok b hb).2.2.1, (parseUsize_bytes tok n htok b hb).2.2.2⟩
  have htokws : ∀ b ∈ tok.reverse, ¬(b = 32 ∨ b = 9) := by
    intro b hb
    obtain ⟨h1, h2, _, _⟩ := parseUsize_bytes tok n htok b (List.mem_reverse.mp hb)
    rintro (h | h)
    · exact h1 h
    · exact h2 h
  have hargsno : ∀ b ∈ stail ++ 32 :: tok, b ≠ 13 ∧ b ≠ 10 := by
    intro b hb
    rcases List.mem_append.mp hb with h | h
    · exact hsub b h
    · rcases List.mem_cons.mp h with h32 | h
      · subst h32
        exact ⟨by omega, by omega⟩
      · exact htokb b h
  -- the parser after the verb and its delimiter
  have h0 : consume Parser.new (asciiBytes "PUB ") = some pubSpaceState := rfl
  -- the parser after the whole argument line body
  have hstep1 : step pubSpaceState s0 = .cont (argPush pubArg0 s0) := by
    have hle : ¬ (pubArg0.buf.length ≤ pubArg0.arg_len) := by
      show ¬ ((512 : Nat) ≤ 0)
      omega
    rw [step_eq_pubSpace pubSpaceState rfl s0, if_neg hs0]
    have e : ({ pubSpaceState with state := ParseState.OpPubArg, arg_len := 0 } : Parser) =
        pubArg0 := rfl
    rw [e]
    simp only [pubArgStep, if_neg hs0a, if_neg hs0b, add_arg, if_neg hle]
  have hbound : (argPush pubArg0 s0).arg_len + (stail ++ 32 :: tok).length ≤
      (argPush pubArg0 s0).buf.length := by
    simp only [argPush, pubArg0, Parser.new, List.length_append, List.length_cons,
      List.length_set, List.length_replicate, BUF_LEN]
    omega
  have hrun : consume pubSpaceState (s0 :: (stail ++ 32 :: tok)) =
      some (addArgs pubArg0 (s0 :: (stail ++ 32 :: tok))) := by
    simp only [consume, hstep1]
    exact consume_pubArgs (stail ++ 32 :: tok) (argPush pubArg0 s0) rfl hargsno hbound
  obtain ⟨hfst, hfmb, hfmtl, hfml, hfal, hfbl⟩ :=
    addArgs_fields (s0 :: (stail ++ 32 :: tok)) pubArg0
  have htake := addArgs_take (s0 :: (stail ++ 32 :: tok)) pubArg0 (by
    show 0 + (s0 :: (stail ++ 32 :: tok)).length ≤ (List.replicate BUF_LEN 0).length
    simp only [List.length_cons, List.length_append, List.length_replicate, BUF_LEN]
    omega)
  set pA := addArgs pubArg0 (s0 :: (stail ++ 32 :: tok)) with hpA
  have hstA : pA.state = .OpPubArg := hfst
  have hal : pA.arg_len = stail.length + tok.length + 2 := by
    rw [hfal]
    simp only [pubArg0, Parser.new, List.length_cons, List.length_append]
    omega
  have htakeA : pA.buf.take pA.arg_len = s0 :: (stail ++ 32 :: tok) := by
    rw [hfal, htake]
    have e : pubArg0.buf.take pubArg0.arg_len = [] := rfl
    rw [e]
    simp
  -- the whole run up to the trailing CRLF
  have hmain : Parser.parse Parser.new
      (asciiBytes "PUB " ++ (s0 :: stail) ++ (32 :: tok) ++ [13, 10]) =
      parseRun pA [13, 10] (stail.length + tok.length + 6) := by
    have e1 : asciiBytes "PUB " ++ (s0 :: stail) ++ (32 :: tok) ++ [13, 10] =
        asciiBytes "PUB " ++ ((s0 :: (stail ++ 32 :: tok)) ++ [13, 10]) := by
      simp
    rw [Parser.parse, e1,
      consume_parseRun (asciiBytes "PUB ") Parser.new pubSpaceState h0
        ((s0 :: (stail ++ 32 :: tok)) ++ [13, 10]) 0,
      consume_parseRun (s0 :: (stail ++ 32 :: tok)) pubSpaceState pA hrun [13, 10]
        (0 + (asciiBytes "PUB ").length)]
    congr 1
    show 0 + 4 + (s0 :: (stail ++ 32 :: tok)).length = stail.length + tok.length + 6
    simp only [List.length_cons, List.length_append, List.length_cons]
    omega
  -- the carriage return is skipped
  have h13 : step pA 13 = .cont pA := by
    simp only [step, hstA, pubArgStep, if_pos]
  -- the declared size extracted on the newline
  have hp1take : ({ pA with state := ParseState.OpMsgPayload } : Parser).buf.take
      ({ pA with state := ParseState.OpMsgPayload } : Parser).arg_len =
      s0 :: (stail ++ 32 :: tok) := htakeA
  have hpps : process_payload_size ({ pA with state := ParseState.OpMsgPayload } : Parser) =
      .ok n := by
    simp only [process_payload_size, hp1take]
    have hrev : (s0 :: (stail ++ 32 :: tok)).reverse =
        tok.reverse ++ (32 :: (s0 :: stail).reverse) := by
      simp
    rw [hrev, position_append_none tok.reverse (32 :: (s0 :: stail).reverse) htokws]
    have h32 : position (32 :: (s0 :: stail).reverse) = some 0 := by
      simp [position]
    rw [h32]
    simp only [Option.map_some']
    have hdrop : (s0 :: (stail ++ 32 :: tok)).drop
        (({ pA with state := ParseState.OpMsgPayload } : Parser).arg_len -
          (0 + tok.reverse.length)) = tok := by
      have e2 : (s0 :: (stail ++ 32 :: tok)) = ((s0 :: stail) ++ [32]) ++ tok := by
        simp
      have e3 : ({ pA with state := ParseState.OpMsgPayload } : Parser).arg_len -
          (0 + tok.reverse.length) = ((s0 :: stail) ++ [32]).length := by
        show pA.arg_len - (0 + tok.reverse.length) = ((s0 :: stail) ++ [32]).length
        rw [hal]
        simp only [List.length_reverse, List.length_append, List.length_cons,
          List.length_nil]
        omega
      rw [e2, e3]
      exact List.drop_left ((s0 :: stail) ++ [32]) tok
    rw [hdrop, htok]
  have hmb : ({ pA with state := ParseState.OpMsgPayload } : Parser).msg_buf = none := hfmb
  refine ⟨rfl, ?_, ?_⟩
  · intro hn
    have h10 : step pA 10 = .fail ERROR_MESSAGE_SIZE_TOO_LARGE
        ({ pA with state := ParseState.OpMsgPayload } : Parser) := by
      have e4 : step pA 10 = pubArgStep pA 10 := by
        simp only [step, hstA]
      rw [e4]
      simp only [pubArgStep]
      norm_num
      simp only [hpps]
      rw [if_pos hn]
    rw [hmain]
    simp only [parseRun, h13, h10, POut.code]
  · intro hn
    have h10 : step pA 10 = .cont
        { (if BUF_LEN < n + ({ pA with state := ParseState.OpMsgPayload } : Parser).arg_len ∧
              ({ pA with state := ParseState.OpMsgPayload } : Parser).msg_buf = none then
            { ({ pA with state := ParseState.OpMsgPayload } : Parser) with msg_buf := some [] }
          else ({ pA with state := ParseState.OpMsgPayload } : Parser)) with
          msg_total_len := n } := by
      have e4 : step pA 10 = pubArgStep pA 10 := by
        simp only [step, hstA]
      rw [e4]
      simp only [pubArgStep]
      norm_num
      simp only [hpps]
      rw [if_neg hn]
    rw [hmain]
    simp only [parseRun, h13, h10, POut.event, Option.some.injEq, Prod.mk.injEq]

/-- Spaces and tabs in state OpMsgEnd are skipped without effect. -/
theorem parseRun_msgEnd_ws :
    ∀ (ws : List Nat) (p : Parser), p.state = .OpMsgEnd →
      (∀ b ∈ ws, b = 32 ∨ b = 9) →
      ∀ (t : List Nat) (i : Nat), parseRun p (ws ++ t) i = parseRun p t (i + ws.length)
  | [], p, _, _, t, i => by simp
  | b :: ws, p, hst, hws, t, i => by
    have hstep : step p b = .cont p := by
      rw [step_eq_msgEnd p hst b, if_pos (hws b (by simp))]
    simp only [List.cons_append, parseRun, hstep, List.append_eq]
    rw [parseRun_msgEnd_ws ws p hst (fun x hx => hws x (by simp [hx])) t (i + 1)]
    congr 1
    simp only [List.length_cons]
    omega

/-- Claim C5, counterexample: the byte right after the exact declared
payload need not be a CR — here it is the letter X — yet parse accepts the
frame and returns the Publish event, where the claim demands a parse
error. -/
theorem pub_trailing_junk_accepted :
    (Parser.parse Parser.new
        ((asciiBytes "PUB FOO 2\r\n" ++ asciiBytes "ab") ++ 88 :: ([] ++ [10]))).event =
      some (.pub { subject := asciiBytes "FOO", size_buf := asciiBytes "2",
                   size := 2, msg := asciiBytes "ab" }, 15) := by
  decide

/-- Claim C5 as amended: after exactly the declared number of payload
bytes, the next byte of the stream is consumed without any validation (in
particular it need not be a CR); after it, any run of spaces and tabs is
tolerated, and an LF completes the frame; any other byte in that
post-payload region is a parse error. -/
theorem pub_trailing_behavior (c : Nat) (ws : List Nat)
    (hws : ∀ b ∈ ws, b = 32 ∨ b = 9) (x : Nat) (hx : ¬(x = 32 ∨ x = 9)) (hx10 : x ≠ 10)
    (rest : List Nat) :
    (Parser.parse Parser.new
        ((asciiBytes "PUB FOO 2\r\n" ++ asciiBytes "ab") ++ c :: (ws ++ [10]))).event =
      some (.pub { subject := asciiBytes "FOO", size_buf := asciiBytes "2",
                   size := 2, msg := asciiBytes "ab" }, 15 + ws.length) ∧
    (Parser.parse Parser.new
        ((asciiBytes "PUB FOO 2\r\n" ++ asciiBytes "ab") ++ c :: (ws ++ x :: rest))).code =
      some ERROR_PARSE := by
  have h0 : consume Parser.new (asciiBytes "PUB FOO 2\r\n" ++ asciiBytes "ab") = some c5mid :=
    rfl
  have hstc : c5mid.state = .OpMsgPayload := rfl
  have hnc : ¬ (c5mid.msg_len < c5mid.msg_total_len) := by decide
  have hstepc : ∀ b : Nat, step c5mid b = .cont c5end := fun b => by
    rw [step_eq_msgPayload c5mid hstc b, if_neg hnc]
    rfl
  have hstq : c5end.state = .OpMsgEnd := rfl
  have hlen13 : (asciiBytes "PUB FOO 2\r\n" ++ asciiBytes "ab").length = 13 := by decide
  constructor
  · rw [Parser.parse, consume_parseRun _ _ _ h0 (c :: (ws ++ [10])) 0, hlen13]
    simp only [parseRun, hstepc c]
    rw [parseRun_msgEnd_ws ws c5end hstq hws [10] (0 + 13 + 1)]
    have hstep10 : step c5end 10 =
        .done (.pub { subject := asciiBytes "FOO", size_buf := asciiBytes "2",
                      size := 2, msg := asciiBytes "ab" })
          ({ c5end with state := ParseState.OpStart }) := by
      rw [step_eq_msgEnd c5end hstq 10, if_neg (by decide), if_pos rfl]
      have hp : process_payload ({ c5end with state := ParseState.OpStart } : Parser) =
          .ok (.pub { subject := asciiBytes "FOO", size_buf := asciiBytes "2",
                      size := 2, msg := asciiBytes "ab" }) := by
        decide
      rw [hp]
    simp only [parseRun, hstep10, POut.event, Option.some.injEq, Prod.mk.injEq]
    exact ⟨trivial, by omega⟩
  · rw [Parser.parse, consume_parseRun _ _ _ h0 (c :: (ws ++ x :: rest)) 0, hlen13]
    simp only [parseRun, hstepc c]
    rw [parseRun_msgEnd_ws ws c5end hstq hws (x :: rest) (0 + 13 + 1)]
    have hstepx : step c5end x = .fail ERROR_PARSE c5end := by
      rw [step_eq_msgEnd c5end hstq x, if_neg hx, if_neg hx10]
    simp only [parseRun, hstepx, POut.code]

/-- Witness for the amended C5 theorem: a CR then one space then LF
completes the frame, and a letter after the skipped byte is a parse
error. -/
theorem pub_trailing_behavior_witness :
    (Parser.parse Parser.new
        ((asciiBytes "PUB FOO 2\r\n" ++ asciiBytes "ab") ++ 13 :: ([32] ++ [10]))).event =
      some (.pub { subject := asciiBytes "FOO", size_buf := asciiBytes "2",
                   size := 2, msg := asciiBytes "ab" }, 16) ∧
    (Parser.parse Parser.new
        ((asciiBytes "PUB FOO 2\r\n" ++ asciiBytes "ab") ++ 13 :: ([32] ++ 65 :: []))).code =
      some ERROR_PARSE :=
  ⟨(pub_trailing_behavior 13 [32] (by decide) 65 (by decide) (by decide) []).1,
   (pub_trailing_behavior 13 [32] (by decide) 65 (by decide) (by decide) []).2⟩

/-! The in-place write invariant (claim C10). -/

/-- process_sub can only abort through the UTF-8 unwrap. -/
theorem process_sub_fatal (p : Parser) (a : AbortKind)
    (h : process_sub p = .fatal a) : a = .subUtf8 := by
  simp only [process_sub] at h
  split_ifs at h with h1 h2
  · split at h <;> exact (nomatch h)
  · injection h with h3
    exact h3.symm

/-- process_payload can only abort through the token array or the payload
slice, never through the add_msg guard. -/
theorem process_payload_fatal (p : Parser) (a : AbortKind)
    (h : process_payload p = .fatal a) : a = .pubTokens ∨ a = .pubSlice := by
  simp only [process_payload, payloadTokens] at h
  split at h
  all_goals split_ifs at h
  all_goals first
    | (injection h with h3
       exact .inl h3.symm)
    | (injection h with h3
       exact .inr h3.symm)

/-- One byte in state OpPubArg preserves the invariant: the newline branch
either keeps the overflow buffer, or establishes the in-place bound it
just checked. -/
theorem pubArgStep_good (buf : List Nat) (al mtl ml : Nat) (mb : Option (List Nat)) (b : Nat)
    (hlen : buf.length = 512)
    (hinv2 : mb = none → mtl ≤ ml) :
    StepGood (pubArgStep ⟨.OpPubArg, buf, al, mb, mtl, ml⟩ b) := by
  dsimp only [pubArgStep]
  split_ifs with h13 h10
  · exact ⟨hlen, fun _ hs => (nomatch hs), fun hmb _ => hinv2 hmb⟩
  · cases hpps : process_payload_size ⟨.OpMsgPayload, buf, al, mb, mtl, ml⟩ with
    | error c =>
      simp only [hpps]
      refine ⟨hlen, fun hmb _ hlt => ?_, fun _ hne => absurd rfl hne⟩
      have h2 : mtl ≤ ml := hinv2 hmb
      have hlt2 : ml < mtl := hlt
      omega
    | ok n =>
      simp only [hpps]
      split_ifs with hsize halloc
      · refine ⟨hlen, fun hmb _ hlt => ?_, fun _ hne => absurd rfl hne⟩
        have h2 : mtl ≤ ml := hinv2 hmb
        have hlt2 : ml < mtl := hlt
        omega
      · exact ⟨hlen, fun hmb => (nomatch hmb), fun hmb => (nomatch hmb)⟩
      · refine ⟨hlen, fun hmb _ _ => ?_, fun _ hne => absurd rfl hne⟩
        have hmb2 : mb = none := hmb
        have halloc2 : ¬ (512 < n + al ∧ mb = none) := halloc
        have h3 : ¬ (512 < n + al) := fun hgt => halloc2 ⟨hgt, hmb2⟩
        show al + n ≤ 512
        omega
  · dsimp only [add_arg]
    split_ifs with hfull
    · exact ⟨hlen, fun _ hs => (nomatch hs), fun hmb _ => hinv2 hmb⟩
    · exact ⟨by simp [argPush, List.length_set, hlen], fun _ hs => (nomatch hs),
        fun hmb _ => hinv2 hmb⟩

/-- One byte in state OpSubArg preserves the invariant and can only abort
through the UTF-8 unwrap of process_sub. -/
theorem subArgStep_good (buf : List Nat) (al mtl ml : Nat) (mb : Option (List Nat)) (b : Nat)
    (hlen : buf.length = 512)
    (hinv2 : mb = none → mtl ≤ ml) :
    StepGood (subArgStep ⟨.OpSubArg, buf, al, mb, mtl, ml⟩ b) := by
  dsimp only [subArgStep]
  split_ifs with h13 h10
  · exact ⟨hlen, fun _ hs => (nomatch hs), fun hmb _ => hinv2 hmb⟩
  · cases hps : process_sub ⟨.OpStart, buf, al, mb, mtl, ml⟩ with
    | ok r =>
      simp only [hps]
      exact ⟨hlen, fun _ hs => (nomatch hs), fun hmb _ => hinv2 hmb⟩
    | err c =>
      simp only [hps]
      exact ⟨hlen, fun _ hs => (nomatch hs), fun hmb _ => hinv2 hmb⟩
    | fatal a =>
      simp only [hps]
      rw [process_sub_fatal _ _ hps]
      exact fun hc => (nomatch hc)
  · dsimp only [add_arg]
    split_ifs with hfull
    · exact ⟨hlen, fun _ hs => (nomatch hs), fun hmb _ => hinv2 hmb⟩
    · exact ⟨by simp [argPush, List.length_set, hlen], fun _ hs => (nomatch hs),
        fun hmb _ => hinv2 hmb⟩

/-- Every single byte step preserves the invariant, and any abort it can
produce is not the add_msg guard. -/
theorem step_good (p : Parser) (b : Nat) (h : Good p) : StepGood (step p b) := by
  cases p with
  | mk st buf al mb mtl ml =>
    obtain ⟨hlen, hinv1, hinv2⟩ := h
    dsimp only at hlen hinv1 hinv2
    cases st with
    | OpStart =>
      dsimp only [step]
      split_ifs with h1 h2
      · exact ⟨hlen, fun _ hs => (nomatch hs), fun hmb _ => hinv2 hmb (fun hc => nomatch hc)⟩
      · exact ⟨hlen, fun _ hs => (nomatch hs), fun hmb _ => hinv2 hmb (fun hc => nomatch hc)⟩
      · exact ⟨hlen, hinv1, hinv2⟩
    | OpP =>
      dsimp only [step]
      split_ifs with h1
      · exact ⟨hlen, fun _ hs => (nomatch hs), fun hmb _ => hinv2 hmb (fun hc => nomatch hc)⟩
      · exact ⟨hlen, hinv1, hinv2⟩
    | OpPu =>
      dsimp only [step]
      split_ifs with h1
      · exact ⟨hlen, fun _ hs => (nomatch hs), fun hmb _ => hinv2 hmb (fun hc => nomatch hc)⟩
      · exact ⟨hlen, hinv1, hinv2⟩
    | OpPub =>
      dsimp only [step]
      split_ifs with h1
      · exact ⟨hlen, fun _ hs => (nomatch hs), fun hmb _ => hinv2 hmb (fun hc => nomatch hc)⟩
      · exact ⟨hlen, hinv1, hinv2⟩
    | OpPubSpace =>
      dsimp only [step]
      split_ifs with h1
      · exact ⟨hlen, hinv1, hinv2⟩
      · exact pubArgStep_good buf 0 mtl ml mb b hlen
          (fun hmb => hinv2 hmb (fun hc => nomatch hc))
    | OpPubArg =>
      exact pubArgStep_good buf al mtl ml mb b hlen
        (fun hmb => hinv2 hmb (fun hc => nomatch hc))
    | OpS =>
      dsimp only [step]
      split_ifs with h1
      · exact ⟨hlen, fun _ hs => (nomatch hs), fun hmb _ => hinv2 hmb (fun hc => nomatch hc)⟩
      · exact ⟨hlen, hinv1, hinv2⟩
    | OpSu =>
      dsimp only [step]
      split_ifs with h1
      · exact ⟨hlen, fun _ hs => (nomatch hs), fun hmb _ => hinv2 hmb (fun hc => nomatch hc)⟩
      · exact ⟨hlen, hinv1, hinv2⟩
    | OpSub =>
      dsimp only [step]
      split_ifs with h1
      · exact ⟨hlen, fun _ hs => (nomatch hs), fun hmb _ => hinv2 hmb (fun hc => nomatch hc)⟩
      · exact ⟨hlen, hinv1, hinv2⟩
    | OPSubSpace =>
      dsimp only [step]
      split_ifs with h1
      · exact ⟨hlen, hinv1, hinv2⟩
      · exact subArgStep_good buf 0 mtl ml mb b hlen
          (fun hmb => hinv2 hmb (fun hc => nomatch hc))
    | OpSubArg =>
      exact subArgStep_good buf al mtl ml mb b hlen
        (fun hmb => hinv2 hmb (fun hc => nomatch hc))
    | OpMsgPayload =>
      dsimp only [step]
      split_ifs with hlt
      · dsimp only [add_msg]
        cases mb with
        | some v =>
          exact ⟨hlen, fun hmb => (nomatch hmb), fun hmb => (nomatch hmb)⟩
        | none =>
          have hbound : al + mtl ≤ 512 := hinv1 rfl rfl hlt
          rw [if_neg (by
            show ¬ (BUF_LEN < al + mtl)
            dsimp only [BUF_LEN]
            omega)]
          exact ⟨by simpa using hlen, fun _ _ _ => hbound, fun _ hne => absurd rfl hne⟩
      · exact ⟨hlen, fun _ hs => (nomatch hs), fun _ _ => by
          show mtl ≤ ml
          omega⟩
    | OpMsgEnd =>
      dsimp only [step]
      split_ifs with h1 h2
      · exact ⟨hlen, hinv1, hinv2⟩
      · cases hp : process_payload ⟨.OpStart, buf, al, mb, mtl, ml⟩ with
        | ok r =>
          simp only [hp]
          exact ⟨hlen, fun _ hs => (nomatch hs), fun hmb _ => hinv2 hmb (fun hc => nomatch hc)⟩
        | err c =>
          simp only [hp]
          exact ⟨hlen, fun _ hs => (nomatch hs), fun hmb _ => hinv2 hmb (fun hc => nomatch hc)⟩
        | fatal a =>
          simp only [hp]
          rcases process_payload_fatal _ _ hp with h3 | h3
          · rw [h3]
            exact fun hc => (nomatch hc)
          · rw [h3]
            exact fun hc => (nomatch hc)
      · exact ⟨hlen, hinv1, hinv2⟩

/-- A whole parse call preserves the invariant and never reports the
add_msg abort. -/
theorem parseRun_good :
    ∀ (l : List Nat) (p : Parser) (i : Nat), Good p → POutGood (parseRun p l i)
  | [], p, i, h => h
  | b :: rest, p, i, h => by
    have hs := step_good p b h
    cases hstep : step p b with
    | cont q =>
      rw [hstep] at hs
      simp only [parseRun, hstep]
      exact parseRun_good rest q (i + 1) hs
    | done r q =>
      rw [hstep] at hs
      simp only [parseRun, hstep]
      exact hs
    | fail c q =>
      rw [hstep] at hs
      simp only [parseRun, hstep]
      exact hs
    | fatal a =>
      rw [hstep] at hs
      simp only [parseRun, hstep]
      exact hs

theorem good_new : Good Parser.new := by
  refine ⟨?_, ?_, ?_⟩
  · simp [Parser.new, BUF_LEN]
  · intro _ hs
    exact (nomatch hs)
  · intro _ _
    exact Nat.le_refl 0

/-- A whole session of parse calls against one decoder, threading the
parser through normal and error returns alike, never hits the add_msg
abort when started from the invariant. -/
theorem parseSession_good :
    ∀ (cs : List (List Nat)) (p : Parser), Good p →
      isAddMsgAbort (parseSession p cs) = false
  | [], _, _ => rfl
  | c :: cs, p, h => by
    have hr := parseRun_good c p 0 h
    simp only [parseSession, Parser.parse]
    cases hout : parseRun p c 0 with
    | ok r n q =>
      rw [hout] at hr
      exact parseSession_good cs q hr
    | err e q =>
      rw [hout] at hr
      exact parseSession_good cs q hr
    | fatal a =>
      rw [hout] at hr
      cases a with
      | addMsg => exact absurd rfl hr
      | subUtf8 => rfl
      | pubTokens => rfl
      | pubSlice => rfl

/-- Claim C10: through the public parse API — any sequence of parse calls
against one decoder starting from Parser::new, reusing the decoder after
normal returns and after errors — the in-place abort branch of add_msg is
unreachable: whenever add_msg stores a payload byte into the fixed scratch
buffer, arg_len + msg_total_len is at most BUF_LEN, established by the
overflow-allocation guard at the argument newline, so every scratch-buffer
write is in bounds. -/
theorem add_msg_guard_unreachable (chunks : List (List Nat)) :
    isAddMsgAbort (parseSession Parser.new chunks) = false :=
  parseSession_good chunks Parser.new good_new

/-- Witness for C6: declared size 0 yields the size error, declared size 5
does not (the line alone is an incomplete frame). -/
theorem pub_size_bound_witness :
    (Parser.parse Parser.new
        (asciiBytes "PUB " ++ (65 :: ([] : List Nat)) ++ (32 :: [48]) ++ [13, 10])).code =
      some ERROR_MESSAGE_SIZE_TOO_LARGE ∧
    (Parser.parse Parser.new
        (asciiBytes "PUB " ++ (65 :: ([] : List Nat)) ++ (32 :: [53]) ++ [13, 10])).event =
      some (.noMsg, 9) :=
  ⟨(pub_size_bound 65 [] [48] 0 (by decide) (by decide) (by decide)
      (by simp) (by decide) (by decide)).2.1 (Or.inl rfl),
   (pub_size_bound 65 [] [53] 5 (by decide) (by decide) (by decide)
      (by simp) (by decide) (by decide)).2.2 (by decide)⟩

end NatsRs
